import Mathlib

/-!
Shallow embedding of the BRAIN activation-spreading engine.

Python reference modules embedded here:
  engine/graph/node.py, engine/graph/edge.py, engine/graph/brain.py,
  engine/cognition/dynamics.py, engine/cognition/goals.py,
  engine/language/motor.py (plus the slice of loaders/lexicon_loader.py
  that the motor generator consumes).

Modelling conventions:
  * Python floats become exact rationals (ℚ); all operations used by the
    engine (+, -, *, /, abs, min, max, comparisons) are exact on ℚ.
  * Python dicts (which preserve insertion order and have unique keys)
    become insertion-ordered association lists; `dict.get` becomes a
    `find?`-based lookup on the first component.
  * In-place mutation becomes explicit state passing: a Python function
    that mutates the graph returns the successor graph.
  * Python's stable sorts (`list.sort` / `sorted`, also with
    `reverse=True` and tuple keys) become `List.insertionSort` with the
    matching "may come first" relation, which is stable in the same sense.
  * The seeded pseudo-random source `random.Random(seed)` is modelled by
    the deterministic stream of draws it produces, a `List ℕ`;
    `rng.randint(0, n-1)` consumes the head `x` of the stream and yields
    `x % n`.
  * A Python `raise` (or an unreachable `IndexError`) is an `Option`
    result of `none`, or an error component carried beside the unchanged
    state.
-/

namespace BRAIN

/-! ## Graph data model (engine/graph/node.py, edge.py, brain.py) -/

/-- A neuron node: `Node.__init__` sets `activation = baseline`. -/
structure Node where
  id : String
  type : String
  label : String
  activation : ℚ
  baseline : ℚ
  decay : ℚ
  threshold : ℚ
  metadata : List (String × String) := []
deriving DecidableEq

/-- `Node.VALID_TYPES`, in the source tuple order. -/
def VALID_TYPES : List String :=
  [("concept"), ("topic"), ("emotion"), ("goal"), ("motor"), ("lexeme")]

/-- `Node.reset`: activation returns to baseline. -/
def Node.reset (n : Node) : Node := { n with activation := n.baseline }

/-- `Node.clamp`: activation forced into [0,1]. -/
def Node.clamp (n : Node) : Node :=
  { n with activation := max 0 (min 1 n.activation) }

/-- `Node.is_active`: activation at or above threshold. -/
def Node.is_active (n : Node) : Bool := decide (n.threshold ≤ n.activation)

/-- A typed weighted edge with its credit-assignment accumulator. -/
structure Edge where
  source_id : String
  target_id : String
  type : String
  weight : ℚ
  contribution : ℚ := 0
deriving DecidableEq

/-- `BrainGraph`: node dict (insertion-ordered, unique ids), edge list,
and the two adjacency indices.  The adjacency lists hold indices into
`edges`, modelling Python's aliasing of the shared `Edge` objects. -/
structure BrainGraph where
  nodes : List Node
  edges : List Edge
  outgoing : List (String × List Nat)
  incoming : List (String × List Nat)
deriving DecidableEq

/-- The empty graph (`BrainGraph.__init__`). -/
def BrainGraph.empty : BrainGraph := ⟨[], [], [], []⟩

/-- Association-list lookup: Python `d.get(k)`. -/
def aLookup {β : Type} (l : List (String × β)) (k : String) : Option β :=
  (l.find? (fun p => p.1 == k)).map (fun p => p.2)

/-- Python `d.setdefault(k, v)`: keep an existing entry, else append one. -/
def aSetdefault {β : Type} (l : List (String × β)) (k : String) (v : β) :
    List (String × β) :=
  if l.any (fun p => p.1 == k) then l else l ++ [(k, v)]

/-- Append `v` to the list stored under key `k` (Python `d[k].append(v)`;
the key is guaranteed present for graphs built through `add_node`). -/
def aAppend (l : List (String × List Nat)) (k : String) (v : Nat) :
    List (String × List Nat) :=
  l.map (fun p => if p.1 == k then (p.1, p.2 ++ [v]) else p)

/-- Ids of the graph's nodes, in insertion order. -/
def BrainGraph.nodeIds (g : BrainGraph) : List String := g.nodes.map Node.id

/-- `BrainGraph.get_node`. -/
def BrainGraph.get_node (g : BrainGraph) (node_id : String) : Option Node :=
  g.nodes.find? (fun n => n.id == node_id)

/-- `BrainGraph.add_node`: raising becomes an error message beside the
unchanged graph; success returns `none` beside the successor graph. -/
def BrainGraph.add_node (g : BrainGraph) (n : Node) :
    Option String × BrainGraph :=
  if g.nodeIds.contains n.id then
    (some (("Duplicate node id: ") ++ n.id), g)
  else
    (none,
      { g with
        nodes := g.nodes ++ [n]
        outgoing := aSetdefault g.outgoing n.id []
        incoming := aSetdefault g.incoming n.id [] })

/-- `BrainGraph.add_edge`: source checked before target, as in the source. -/
def BrainGraph.add_edge (g : BrainGraph) (e : Edge) :
    Option String × BrainGraph :=
  if ¬ g.nodeIds.contains e.source_id then
    (some (("Edge source not found: ") ++ e.source_id), g)
  else if ¬ g.nodeIds.contains e.target_id then
    (some (("Edge target not found: ") ++ e.target_id), g)
  else
    (none,
      { g with
        edges := g.edges ++ [e]
        outgoing := aAppend g.outgoing e.source_id g.edges.length
        incoming := aAppend g.incoming e.target_id g.edges.length })

/-- `BrainGraph.get_outgoing`, resolving the stored edge indices. -/
def BrainGraph.get_outgoing (g : BrainGraph) (node_id : String) : List Edge :=
  ((aLookup g.outgoing node_id).getD []).filterMap (fun i => g.edges.get? i)

/-- `BrainGraph.get_nodes_by_type`. -/
def BrainGraph.get_nodes_by_type (g : BrainGraph) (t : String) : List Node :=
  g.nodes.filter (fun n => n.type == t)

/-- `BrainGraph.reset_activations`. -/
def BrainGraph.reset_activations (g : BrainGraph) : BrainGraph :=
  { g with nodes := g.nodes.map Node.reset }

/-- `BrainGraph.reset_contributions`. -/
def BrainGraph.reset_contributions (g : BrainGraph) : BrainGraph :=
  { g with edges := g.edges.map (fun e => { e with contribution := 0 }) }

/-- Representation invariant of graphs built through `add_node`/`add_edge`:
each adjacency index has exactly one entry per node, in insertion order,
and node ids are unique. -/
def BrainGraph.wf (g : BrainGraph) : Prop :=
  g.outgoing.map Prod.fst = g.nodes.map Node.id ∧
  g.incoming.map Prod.fst = g.nodes.map Node.id ∧
  (g.nodes.map Node.id).Nodup

instance (g : BrainGraph) : Decidable g.wf := by
  unfold BrainGraph.wf; infer_instance

/-! ## Stable sorting (Python `list.sort` / `sorted`) -/

instance decRelDescBy {α : Type} (k : α → ℚ) :
    DecidableRel (fun a b => k b ≤ k a) :=
  fun a b => inferInstanceAs (Decidable (k b ≤ k a))

/-- Stable descending sort by a rational key: Python
`sort(key=k, reverse=True)`.  `a` may come before `b` iff `k b ≤ k a`,
so equal keys keep their original relative order. -/
def sortDescBy {α : Type} (k : α → ℚ) (l : List α) : List α :=
  List.insertionSort (fun a b => k b ≤ k a) l

/-- Lexicographic order on rational pairs (Python tuple comparison). -/
def pairLE (p q : ℚ × ℚ) : Prop := p.1 < q.1 ∨ (p.1 = q.1 ∧ p.2 ≤ q.2)

instance (p q : ℚ × ℚ) : Decidable (pairLE p q) := by
  unfold pairLE; infer_instance

instance decRelDescByPair {α : Type} (k : α → ℚ × ℚ) :
    DecidableRel (fun a b => pairLE (k b) (k a)) :=
  fun a b => inferInstanceAs (Decidable (pairLE (k b) (k a)))

/-- Stable descending sort by a rational-pair key: Python
`sort(key=lambda x: (k1, k2), reverse=True)`. -/
def sortDescByPair {α : Type} (k : α → ℚ × ℚ) (l : List α) : List α :=
  List.insertionSort (fun a b => pairLE (k b) (k a)) l

/-! ## Dynamics engine (engine/cognition/dynamics.py) -/

/-- `DynamicsConfig`. -/
structure DynamicsConfig where
  steps : Nat := 20
  inhibition_strength : ℚ := 15/100
  competition_within_type : Bool := true
deriving DecidableEq

/-- The default `DynamicsConfig()`. -/
def defaultConfig : DynamicsConfig := {}

/-- The modulator mapping `run_dynamics` substitutes for `None`. -/
def defaultModulators : List (String × ℚ) :=
  [(("curiosity"), 1/2), (("calm"), 1/2), (("urgency"), 3/10)]

/-- `modulators.get('curiosity', 0.5)`. -/
def curiosityOf (modulators : List (String × ℚ)) : ℚ :=
  (aLookup modulators ("curiosity")).getD (1/2)

/-- `StepRecord`: one per simulation step. -/
structure StepRecord where
  step_num : Nat
  top_active : List (String × ℚ)
deriving DecidableEq

/-- `DynamicsResult`. -/
structure DynamicsResult where
  steps : List StepRecord
  final_activations : List (String × ℚ)
  top_contributing_edges : List (String × String × String × ℚ)
deriving DecidableEq

/-- The mutable state threaded through the step loop: the graph's node
dict values and edge list. -/
structure StepState where
  nodes : List Node
  edges : List Edge
deriving DecidableEq

/-- One injection: `node.activation = min(1.0, node.activation + value)`,
silently skipping unknown ids. -/
def injectOne (nodes : List Node) (p : String × ℚ) : List Node :=
  nodes.map (fun n =>
    if n.id == p.1 then { n with activation := min 1 (n.activation + p.2) }
    else n)

/-- Apply all initial activations, in mapping (insertion) order. -/
def injectAll (nodes : List Node) (initial_activations : List (String × ℚ)) :
    List Node :=
  initial_activations.foldl injectOne nodes

/-- Pass (a): decay toward baseline,
`activation += (baseline - activation) * decay`. -/
def decayNode (n : Node) : Node :=
  { n with activation := n.activation + (n.baseline - n.activation) * n.decay }

/-- Pass (a) over the whole node dict. -/
def decayPass (nodes : List Node) : List Node := nodes.map decayNode

/-- The type-specific spread transform of pass (b), for one edge whose
source node is `src`. -/
def edgeSpread (curiosity_mod : ℚ) (src : Node) (e : Edge) : ℚ :=
  let spread := src.activation * e.weight
  if e.type == ("inhibitory") then -(abs spread)
  else if e.type == ("associative") then spread * (1/2 + curiosity_mod * (1/2))
  else if e.type == ("causal") then spread * (8/10)
  else spread

/-- `deltas[target] = deltas.get(target, 0.0) + spread`: add into the
first entry holding the key, else append a fresh entry (dict insertion). -/
def addDelta : List (String × ℚ) → String → ℚ → List (String × ℚ)
  | [], k, v => [(k, v)]
  | p :: ps, k, v =>
    if p.1 == k then (p.1, p.2 + v) :: ps else p :: addDelta ps k v

/-- Pass (b): one edge of the spread loop.  Reads source activations from
the (fixed) post-decay node list, accumulates the delta for the target
and the absolute contribution on the edge. -/
def spreadStep (curiosity_mod : ℚ) (nodes : List Node)
    (acc : List (String × ℚ) × List Edge) (e : Edge) :
    List (String × ℚ) × List Edge :=
  match nodes.find? (fun n => n.id == e.source_id) with
  | some src =>
    if src.is_active then
      let s := edgeSpread curiosity_mod src e
      (addDelta acc.1 e.target_id s,
       acc.2 ++ [{ e with contribution := e.contribution + abs s }])
    else (acc.1, acc.2 ++ [e])
  | none => (acc.1, acc.2 ++ [e])

/-- Pass (b): the whole spread loop, returning the per-target delta dict
and the updated edge list. -/
def spreadPass (curiosity_mod : ℚ) (nodes : List Node) (edges : List Edge) :
    List (String × ℚ) × List Edge :=
  edges.foldl (spreadStep curiosity_mod nodes) ([], [])

/-- Apply the accumulated deltas after every edge has been evaluated. -/
def applyDeltas (nodes : List Node) (deltas : List (String × ℚ)) : List Node :=
  deltas.foldl
    (fun ns p =>
      ns.map (fun n =>
        if n.id == p.1 then { n with activation := n.activation + p.2 }
        else n))
    nodes

/-- The suppression table of pass (c) for one category:
`enumerate(active_nodes[1:], 1)` paired with
`inhibition_strength * (i / len(active_nodes))`.  The auxiliary carries
the 1-based rank `k`. -/
def supprTableAux (strength : ℚ) (n : Nat) : Nat → List Node → List (String × ℚ)
  | _, [] => []
  | k, x :: xs =>
    (x.id, strength * ((k : ℚ) / (n : ℚ))) :: supprTableAux strength n (k + 1) xs

/-- Suppression table over the descending-sorted firing list; the
top-ranked node (head) gets no entry. -/
def supprTable (strength : ℚ) (n : Nat) : List Node → List (String × ℚ)
  | [] => []
  | _ :: xs => supprTableAux strength n 1 xs

/-- Suppression of one node: subtract the tabulated amount when the
node's id is in the table. -/
def supprFn (tbl : List (String × ℚ)) (m : Node) : Node :=
  match tbl.find? (fun q => q.1 == m.id) with
  | some q => { m with activation := m.activation - q.2 }
  | none => m

/-- Subtract each tabulated suppression from the node carrying its id
(`node.activation -= suppression`, applied through the node dict). -/
def applySuppr (tbl : List (String × ℚ)) (nodes : List Node) : List Node :=
  nodes.map (supprFn tbl)

/-- Pass (c) for one node category: skip when the category or its firing
subset has at most one node, else rank the firing subset by activation
descending (stable) and suppress every rank but the first. -/
def competeType (strength : ℚ) (t : String) (nodes : List Node) : List Node :=
  let type_nodes := nodes.filter (fun n => n.type == t)
  if type_nodes.length ≤ 1 then nodes
  else
    let active_nodes := type_nodes.filter (fun n => n.is_active)
    if active_nodes.length ≤ 1 then nodes
    else
      applySuppr
        (supprTable strength active_nodes.length
          (sortDescBy Node.activation active_nodes))
        nodes

/-- Pass (c) over all categories, in `VALID_TYPES` order. -/
def competePass (strength : ℚ) (nodes : List Node) : List Node :=
  VALID_TYPES.foldl (fun ns t => competeType strength t ns) nodes

/-- Pass (d): clamp every node. -/
def clampPass (nodes : List Node) : List Node := nodes.map Node.clamp

/-- One full simulation step: decay, spread, optional competition, clamp,
then record the top-8 firing nodes (activation descending, stable). -/
def runStep (config : DynamicsConfig) (curiosity_mod : ℚ) (st : StepState)
    (step_num : Nat) : StepState × StepRecord :=
  let nodes1 := decayPass st.nodes
  let sp := spreadPass curiosity_mod nodes1 st.edges
  let nodes2 := applyDeltas nodes1 sp.1
  let nodes3 :=
    if config.competition_within_type then
      competePass config.inhibition_strength nodes2
    else nodes2
  let nodes4 := clampPass nodes3
  let act :=
    sortDescBy (fun p => p.2)
      ((nodes4.filter (fun n => n.is_active)).map (fun n => (n.id, n.activation)))
  (⟨nodes4, sp.2⟩, ⟨step_num, act.take 8⟩)

/-- `for step in range(config.steps)`: iterate `runStep`, collecting the
per-step records. -/
def runSteps (config : DynamicsConfig) (curiosity_mod : ℚ) :
    Nat → Nat → StepState → StepState × List StepRecord
  | 0, _, st => (st, [])
  | k + 1, i, st =>
    let sr := runStep config curiosity_mod st i
    let rest := runSteps config curiosity_mod k (i + 1) sr.1
    (rest.1, sr.2 :: rest.2)

/-- `run_dynamics`: reset activations and contributions, inject, iterate,
then expose the final snapshot and the top-10 contributing edges
(contribution descending, ties by edge insertion order).  Returns the
result record together with the mutated graph. -/
def run_dynamics (g : BrainGraph) (initial_activations : List (String × ℚ))
    (config : DynamicsConfig) (modulators : List (String × ℚ)) :
    DynamicsResult × BrainGraph :=
  let nodes0 := injectAll (g.nodes.map Node.reset) initial_activations
  let edges0 := g.edges.map (fun e => { e with contribution := 0 })
  let curiosity_mod := curiosityOf modulators
  let run := runSteps config curiosity_mod config.steps 0 ⟨nodes0, edges0⟩
  let sorted_edges := sortDescBy (fun e => e.contribution) run.1.edges
  ({ steps := run.2
     final_activations := run.1.nodes.map (fun n => (n.id, n.activation))
     top_contributing_edges :=
       (sorted_edges.take 10).map
         (fun e => (e.source_id, e.target_id, e.type, e.contribution)) },
   { g with nodes := run.1.nodes, edges := run.1.edges })

/-! ## Goal arbitration (engine/cognition/goals.py) -/

/-- `GoalResult`. -/
structure GoalResult where
  candidates : List (String × ℚ)
  selected_goal : Option String
  selected_activation : ℚ
deriving DecidableEq

/-- `select_goal`: rank all goal nodes by activation descending (stable)
and pick the head of the ranking; with no goal nodes, return the empty
result.  (The source's `> 0.0` branch and its `else` branch are
identical, so the threshold test has no effect.) -/
def select_goal (g : BrainGraph) : GoalResult :=
  let goal_nodes := g.get_nodes_by_type ("goal")
  if goal_nodes.isEmpty then ⟨[], none, 0⟩
  else
    match sortDescBy (fun p => p.2) (goal_nodes.map (fun n => (n.id, n.activation))) with
    | [] => ⟨[], none, 0⟩
    | c :: rest => ⟨c :: rest, some c.1, c.2⟩

/-- State-passing form of `select_goal`: the source performs no
assignment to any node, edge, or index of the graph, so the successor
graph is the one received. -/
def select_goalS (g : BrainGraph) : GoalResult × BrainGraph :=
  (select_goal g, g)

/-! ## Lexicon interface (slice of engine/loaders/lexicon_loader.py used
by the motor generator) -/

/-- `LexiconEntry`. -/
structure LexEntry where
  id : String
  text : String
  concept_ids : List String
  pos : String
deriving DecidableEq

/-- The lexicon as the motor generator consumes it: the `words` and
`phrases` dicts keyed by surface text, and the `concept_to_words`
index. -/
structure Lexicon where
  words : List (String × LexEntry)
  phrases : List (String × LexEntry)
  concept_to_words : List (String × List String)
deriving DecidableEq

/-- `Lexicon.lookup_word`. -/
def Lexicon.lookup_word (lex : Lexicon) (w : String) : Option LexEntry :=
  aLookup lex.words w

/-- `Lexicon.lookup_phrase`. -/
def Lexicon.lookup_phrase (lex : Lexicon) (w : String) : Option LexEntry :=
  aLookup lex.phrases w

/-- `Lexicon.get_words_for_concept`. -/
def Lexicon.get_words_for_concept (lex : Lexicon) (concept_id : String) :
    List String :=
  (aLookup lex.concept_to_words concept_id).getD []

/-! ## Motor generator (engine/language/motor.py) -/

/-- `WordCandidate` (value snapshot; Python mutates `score` in place). -/
structure WordCandidate where
  word : String
  concept_id : String
  activation : ℚ
  pos : String
  score : ℚ
  reason : String
deriving DecidableEq

/-- `MotorResult`. -/
structure MotorResult where
  candidates_considered : List WordCandidate
  selected_words : List WordCandidate
  final_text : String
deriving DecidableEq

/-- `POS_TRANSITIONS`, verbatim. -/
def POS_TRANSITIONS : List (String × List String) :=
  [(("START"), [("noun"), ("adj"), ("det"), ("pronoun"), ("interjection"), ("verb"), ("adverb")]),
   (("det"), [("noun"), ("adj")]),
   (("adj"), [("noun"), ("adj"), ("conjunction")]),
   (("noun"), [("verb"), ("conjunction"), ("prep"), ("noun"), ("adj"), ("END")]),
   (("pronoun"), [("verb"), ("adverb")]),
   (("verb"), [("noun"), ("adj"), ("det"), ("adverb"), ("prep"), ("pronoun"), ("END")]),
   (("adverb"), [("verb"), ("adj"), ("adverb"), ("END")]),
   (("prep"), [("noun"), ("det"), ("adj"), ("pronoun")]),
   (("conjunction"), [("noun"), ("det"), ("adj"), ("verb"), ("pronoun")]),
   (("interjection"), [("noun"), ("det"), ("pronoun"), ("verb"), ("END")])]

/-- `GOAL_CONCEPT_BOOST`, verbatim. -/
def GOAL_CONCEPT_BOOST : List (String × ℚ) :=
  [(("goal_inform"), 3/10), (("goal_greet"), 4/10), (("goal_describe"), 3/10),
   (("goal_farewell"), 4/10), (("goal_clarify"), 2/10)]

/-- Python `recent_words[-20:]`. -/
def lastN (n : Nat) (l : List String) : List String := l.drop (l.length - n)

/-- Two-decimal rendering used in a candidate's trace justification
(Python `f"{x:.2f}"`; exact rounding of the binary float is below the
precision of the ℚ model, rounding is half-up here). -/
def fmt2 (q : ℚ) : String :=
  let c : ℤ := round (q * 100)
  let fp := (c % 100).natAbs
  toString (c / 100) ++ (".") ++
    (if fp < 10 then ("0") ++ toString fp else toString fp)

/-- The score of a concept/topic/emotion-derived candidate:
`activation * 0.6`, plus `goal_boost * abs(weight)` for the first
outgoing edge of the goal node that targets the originating concept
(only when the goal node exists), times `0.3` when the surface form is
in the recent-words set. -/
def conceptCandScore (g : BrainGraph) (goal_id : String)
    (recent_set : List String) (concept_id : String) (concept_act : ℚ)
    (word_text : String) : ℚ :=
  let base_score := concept_act * (6/10)
  let base_score :=
    match g.get_node goal_id with
    | some _ =>
      let goal_boost := (aLookup GOAL_CONCEPT_BOOST goal_id).getD (1/10)
      match (g.get_outgoing goal_id).find? (fun e => e.target_id == concept_id) with
      | some e => base_score + goal_boost * abs e.weight
      | none => base_score
    | none => base_score
  if recent_set.contains word_text then base_score * (3/10) else base_score

/-- Build one concept-derived candidate. -/
def mkConceptCand (g : BrainGraph) (goal_id : String)
    (recent_set : List String) (concept_id : String) (concept_act : ℚ)
    (word_text : String) (entry : LexEntry) : WordCandidate :=
  { word := word_text
    concept_id := concept_id
    activation := concept_act
    pos := entry.pos
    score := conceptCandScore g goal_id recent_set concept_id concept_act word_text
    reason := ("concept=") ++ concept_id ++ (" act=") ++ fmt2 concept_act ++
      (" goal_match=") ++ goal_id }

/-- The score of a motor/lexeme-derived candidate: `activation * 0.5`,
times `0.3` when the surface form is in the recent-words set. -/
def motorCandScore (recent_set : List String) (act : ℚ) (word_text : String) : ℚ :=
  let s := act * (5/10)
  if recent_set.contains word_text then s * (3/10) else s

/-- Build one motor/lexeme-derived candidate. -/
def mkMotorCand (recent_set : List String) (node : Node) (word_text : String)
    (entry : LexEntry) : WordCandidate :=
  { word := word_text
    concept_id := node.id
    activation := node.activation
    pos := entry.pos
    score := motorCandScore recent_set node.activation word_text
    reason := ("motor/lexeme node=") ++ node.id }

/-- Step 1 of `generate_response`: the firing concept/topic/emotion
nodes as `(id, activation, priority)`, sorted descending by
`(priority, activation)` with Python's stable tuple sort. -/
def activeConcepts (g : BrainGraph) : List (String × ℚ × ℚ) :=
  sortDescByPair (fun x => (x.2.2, x.2.1))
    (g.nodes.filterMap (fun node =>
      if node.is_active &&
          (node.type == ("concept") || node.type == ("topic") ||
            node.type == ("emotion")) then
        some (node.id, node.activation,
          if node.type == ("concept") then 1 else 1/2)
      else none))

/-- Step 2 of `generate_response`: all candidates, concept-derived ones
first (over the top-25 active concepts), then motor/lexeme-derived ones,
in graph/lexicon iteration order. -/
def allCandidates (g : BrainGraph) (lex : Lexicon) (goal_id : String)
    (recent_set : List String) : List WordCandidate :=
  ((activeConcepts g).take 25).flatMap (fun c =>
    (lex.get_words_for_concept c.1).filterMap (fun word_text =>
      match (lex.lookup_word word_text).orElse (fun _ => lex.lookup_phrase word_text) with
      | some entry => some (mkConceptCand g goal_id recent_set c.1 c.2.1 word_text entry)
      | none => none))
  ++
  g.nodes.flatMap (fun node =>
    if node.is_active && (node.type == ("motor") || node.type == ("lexeme")) then
      (lex.get_words_for_concept node.id).filterMap (fun word_text =>
        match (lex.lookup_word word_text).orElse (fun _ => lex.lookup_phrase word_text) with
        | some entry => some (mkMotorCand recent_set node word_text entry)
        | none => none)
    else [])

/-- Step 4 of `generate_response`: the POS-transition assembly loop.
`fuel` counts the remaining iterations of `for _ in range(max_words)`;
`none` models the source's unreachable `top_tier[0]` IndexError (an
empty tier can only arise from a negative top score).  Returns the
selected candidates (selection-time snapshots) and the remaining random
stream. -/
def assembleLoop (max_words : Nat) :
    Nat → List WordCandidate → String → List WordCandidate → List String →
    List Nat → Option (List WordCandidate × List Nat)
  | 0, _, _, selected, _, rng => some (selected, rng)
  | fuel + 1, cands, current_pos, selected, used_words, rng =>
    let allowed_pos :=
      (aLookup POS_TRANSITIONS current_pos).getD [("noun"), ("verb"), ("adj")]
    let eligible0 := cands.filter (fun c =>
      allowed_pos.contains c.pos && !(used_words.contains c.word))
    let eligible1 :=
      if eligible0.isEmpty then
        cands.filter (fun c => !(used_words.contains c.word))
      else eligible0
    if eligible1.isEmpty then some (selected, rng)
    else
      match sortDescBy (fun c => c.score) eligible1 with
      | [] => some (selected, rng)
      | top :: sorted_rest =>
        match (top :: sorted_rest).filter
            (fun c => decide (top.score * (85/100) ≤ c.score)) with
        | [] => none
        | t0 :: tier_rest =>
          let draw : WordCandidate × List Nat :=
            if tier_rest.isEmpty then (t0, rng)
            else
              match rng with
              | [] => (t0, [])
              | x :: xs => ((t0 :: tier_rest).getD (x % (tier_rest.length + 1)) t0, xs)
          let chosen := draw.1
          let selected1 := selected ++ [chosen]
          let used1 := used_words ++ [chosen.word]
          if chosen.pos == ("END") || max_words ≤ selected1.length then
            some (selected1, draw.2)
          else
            let cands1 := cands.map (fun c =>
              if c.concept_id == chosen.concept_id then
                { c with score := c.score * (1/2) }
              else c)
            assembleLoop max_words fuel cands1 chosen.pos selected1 used1 draw.2

/-- `generate_response` with the recent-words set already truncated to
the last 20 entries (the source computes that set once, first). -/
def genWithRecentSet (g : BrainGraph) (lex : Lexicon) (goal_id : String)
    (rng : List Nat) (recent_set : List String) (max_words : Nat) :
    Option (MotorResult × List Nat) :=
  if (activeConcepts g).isEmpty then
    some ({ candidates_considered := []
            selected_words := []
            final_text := ("i am processing") }, rng)
  else
    let all_candidates := allCandidates g lex goal_id recent_set
    match assembleLoop max_words max_words all_candidates ("START") [] [] rng with
    | none => none
    | some sel =>
      some ({ candidates_considered := sortDescBy (fun c => c.score) all_candidates
              selected_words := sel.1
              final_text := String.intercalate (" ") (sel.1.map (fun w => w.word)) },
        sel.2)

/-- `generate_response` (default `max_words` is 15): `none` models an
uncaught exception, which no reachable input produces. -/
def generate_response (g : BrainGraph) (lex : Lexicon) (goal_id : String)
    (rng : List Nat) (recent_words : List String) (max_words : Nat) :
    Option (MotorResult × List Nat) :=
  genWithRecentSet g lex goal_id rng (lastN 20 recent_words) max_words

/-- State-passing form of `generate_response`: the source reads the
graph but performs no assignment to any node, edge, or index of it, so
the successor graph is the one received. -/
def generate_responseS (g : BrainGraph) (lex : Lexicon) (goal_id : String)
    (rng : List Nat) (recent_words : List String) (max_words : Nat) :
    Option (MotorResult × List Nat) × BrainGraph :=
  (generate_response g lex goal_id rng recent_words max_words, g)

/-! ## Full pipeline (orchestrator slice of engine/__init__.py) -/

/-- One turn of the core pipeline: `run_dynamics`, then `select_goal`,
then `generate_response` with the orchestrator's
`selected_goal or "goal_inform"` substitution and default word limit. -/
def pipeline (g : BrainGraph) (initial_activations : List (String × ℚ))
    (config : DynamicsConfig) (modulators : List (String × ℚ)) (lex : Lexicon)
    (rng : List Nat) (recent_words : List String) :
    DynamicsResult × GoalResult × Option (MotorResult × List Nat) :=
  let dyn := run_dynamics g initial_activations config modulators
  let goal := select_goal dyn.2
  let goal_id :=
    match goal.selected_goal with
    | some s => if s == ("") then ("goal_inform") else s
    | none => ("goal_inform")
  (dyn.1, goal, generate_response dyn.2 lex goal_id rng recent_words 15)

/-! ## Specification-side views of the passes (defined from the same
source semantics, used to state the claims) -/

/-- The contribution of one edge to the delta of target `t`, read
entirely from the fixed pre-spread node list: nonzero exactly when the
edge targets `t` and its source is found and firing. -/
def spreadTerm (curiosity_mod : ℚ) (nodes : List Node) (t : String)
    (e : Edge) : ℚ :=
  match nodes.find? (fun n => n.id == e.source_id) with
  | some src =>
    if e.target_id == t && src.is_active then edgeSpread curiosity_mod src e
    else 0
  | none => 0

/-- The total delta a spread pass owes to target `t`: the sum of the
per-edge terms over the edge list. -/
def spreadSum (curiosity_mod : ℚ) (nodes : List Node) (edges : List Edge)
    (t : String) : ℚ :=
  (edges.map (spreadTerm curiosity_mod nodes t)).sum

/-- The sum of all values a delta dict holds under key `t`. -/
def entrySum (l : List (String × ℚ)) (t : String) : ℚ :=
  ((l.filter (fun p => p.1 == t)).map (fun p => p.2)).sum

/-- The activation the node dict holds under an id (0 if absent). -/
def getAct (nodes : List Node) (node_id : String) : ℚ :=
  ((nodes.find? (fun m => m.id == node_id)).map Node.activation).getD 0

/-! ## Concrete inputs for witnesses and counterexamples -/

/-- A single inert node (C3 witness). -/
def wNodeA : Node :=
  { id := ("a"), type := ("concept"), label := ("a"),
    activation := 0, baseline := 0, decay := 0, threshold := 0 }

/-- A one-node graph holding `wNodeA` (C3 witness). -/
def wG3 : BrainGraph := ⟨[wNodeA], [], [(("a"), [])], [(("a"), [])]⟩

/-- The node of the C6 counterexample: `decay = 0` is inside the claim's
stated range [0,1], but a zero decay moves the activation no closer to
the baseline. -/
def c6Node : Node :=
  { id := ("n"), type := ("concept"), label := ("n"),
    activation := 1, baseline := 0, decay := 0, threshold := 1 }

/-- Concrete input for the C6 witness. -/
def c6WitnessNode : Node :=
  { id := ("n"), type := ("concept"), label := ("n"),
    activation := 1, baseline := 0, decay := 1/2, threshold := 1 }

/-- Concrete pipeline output for the C1 witness. -/
def wPipelineOut : DynamicsResult × GoalResult × Option (MotorResult × List Nat) :=
  pipeline BrainGraph.empty [] defaultConfig defaultModulators
    ⟨[], [], []⟩ [] []

/-- Two firing concept nodes for C5: `c5A` outranks `c5B` before the
competition pass. -/
def c5A : Node :=
  { id := ("a"), type := ("concept"), label := ("a"),
    activation := 1/2, baseline := 0, decay := 1/20, threshold := 3/10 }

/-- See `c5A`. -/
def c5B : Node :=
  { id := ("b"), type := ("concept"), label := ("b"),
    activation := 4/10, baseline := 0, decay := 1/20, threshold := 3/10 }

/-- The node dict of the C5 counterexample. -/
def c5Nodes : List Node := [c5A, c5B]

/-- The C5 counterexample runs the competition pass with a negative
`inhibition_strength`, which the configuration type admits. -/
def c5Post : List Node := competeType (-1) ("concept") c5Nodes

/-- A well-formed two-node graph (C7 witness), built through
`add_node`/`add_edge`. -/
def wG7 : BrainGraph :=
  (((BrainGraph.empty.add_node wNodeA).2.add_node
      { id := ("g"), type := ("goal"), label := ("g"),
        activation := 1/2, baseline := 1/2, decay := 1/20,
        threshold := 1/5 }).2.add_edge
    { source_id := ("g"), target_id := ("a"), type := ("excitatory"),
      weight := 1/2 }).2

/-- A fresh node for the C7 witness. -/
def wN7 : Node :=
  { id := ("b"), type := ("topic"), label := ("b"),
    activation := 0, baseline := 0, decay := 1/20, threshold := 3/10 }

/-- A fresh edge for the C7 witness. -/
def wE7 : Edge :=
  { source_id := ("a"), target_id := ("g"), type := ("associative"),
    weight := 3/10 }

/-- A graph with two tied goal nodes and one lower one (C8 witness). -/
def wG8 : BrainGraph :=
  { nodes :=
      [{ id := ("g1"), type := ("goal"), label := ("g1"),
         activation := 1/2, baseline := 0, decay := 1/20, threshold := 1/5 },
       { id := ("g2"), type := ("goal"), label := ("g2"),
         activation := 1/2, baseline := 0, decay := 1/20, threshold := 1/5 },
       { id := ("g3"), type := ("goal"), label := ("g3"),
         activation := 1/4, baseline := 0, decay := 1/20, threshold := 1/5 },
       wNodeA],
    edges := [], outgoing := [], incoming := [] }

/-- A graph with one firing concept node (C2 counterexample: candidates
can be empty while a concept fires). -/
def c2Graph : BrainGraph :=
  { nodes :=
      [{ id := ("c"), type := ("concept"), label := ("c"),
         activation := 8/10, baseline := 0, decay := 1/20, threshold := 3/10 }],
    edges := [], outgoing := [(("c"), [])], incoming := [(("c"), [])] }

/-- The empty lexicon. -/
def emptyLexicon : Lexicon := ⟨[], [], []⟩

/-- Recent words for the C10 witness: 21 entries. -/
def wRecent1 : List String :=
  [("x")] ++ [("w1"), ("w2"), ("w3"), ("w4"), ("w5"), ("w6"), ("w7"),
    ("w8"), ("w9"), ("w10"), ("w11"), ("w12"), ("w13"), ("w14"), ("w15"),
    ("w16"), ("w17"), ("w18"), ("w19"), ("w20")]

/-- Same last-20 suffix as `wRecent1`, different older entry. -/
def wRecent2 : List String :=
  [("y")] ++ [("w1"), ("w2"), ("w3"), ("w4"), ("w5"), ("w6"), ("w7"),
    ("w8"), ("w9"), ("w10"), ("w11"), ("w12"), ("w13"), ("w14"), ("w15"),
    ("w16"), ("w17"), ("w18"), ("w19"), ("w20")]

/-- An inhibitory edge (C4 witness). -/
def wEdgeInh : Edge :=
  { source_id := ("a"), target_id := ("b"), type := ("inhibitory"),
    weight := 1/2 }

/-! ## Generic lemmas about the embedding's building blocks -/

theorem clampPass_bounds (nodes : List Node) :
    ∀ n ∈ clampPass nodes, 0 ≤ n.activation ∧ n.activation ≤ 1 := by
  intro n hn
  rcases List.mem_map.mp hn with ⟨m, _, rfl⟩
  constructor
  · exact le_max_left 0 _
  · exact max_le zero_le_one (min_le_left 1 _)

theorem runStep_nodes_bounds (config : DynamicsConfig) (cur : ℚ)
    (st : StepState) (i : Nat) :
    ∀ n ∈ ((runStep config cur st i).1).nodes,
      0 ≤ n.activation ∧ n.activation ≤ 1 := by
  intro n hn
  exact clampPass_bounds _ n hn

theorem runSteps_final_shape (config : DynamicsConfig) (cur : ℚ) :
    ∀ k i st, 1 ≤ k → ∃ st0 j,
      (runSteps config cur k i st).1 = (runStep config cur st0 j).1 := by
  intro k
  induction k with
  | zero => intro i st h; omega
  | succ m ih =>
    intro i st _
    by_cases hm : 1 ≤ m
    · rcases ih (i + 1) (runStep config cur st i).1 hm with ⟨st0, j, hj⟩
      exact ⟨st0, j, hj⟩
    · have hm0 : m = 0 := by omega
      subst hm0
      exact ⟨st, i, rfl⟩

theorem entrySum_nil (t : String) : entrySum [] t = 0 := rfl

theorem entrySum_cons (p : String × ℚ) (ps : List (String × ℚ)) (t : String) :
    entrySum (p :: ps) t = (if p.1 == t then p.2 else 0) + entrySum ps t := by
  cases h : (p.1 == t) <;> simp [entrySum, List.filter_cons, h]

theorem entrySum_addDelta (l : List (String × ℚ)) (k : String) (v : ℚ)
    (t : String) :
    entrySum (addDelta l k v) t = entrySum l t + (if k == t then v else 0) := by
  induction l with
  | nil =>
    simp only [addDelta, entrySum_cons, entrySum_nil]
    ring
  | cons p ps ih =>
    by_cases hpk : p.1 = k
    · subst hpk
      simp only [addDelta, beq_self_eq_true, if_true, entrySum_cons]
      cases h : (p.1 == t) <;> (simp [h]; try ring)
    · have hpk2 : (p.1 == k) = false := beq_eq_false_iff_ne.mpr hpk
      simp only [addDelta, hpk2, Bool.false_eq_true, if_false, entrySum_cons, ih]
      ring

theorem applyDeltas_eq_map (l : List (String × ℚ)) (nodes : List Node) :
    applyDeltas nodes l =
      nodes.map (fun n =>
        { n with activation := n.activation + entrySum l n.id }) := by
  induction l generalizing nodes with
  | nil =>
    have hfun : (fun n : Node =>
        { n with activation := n.activation + entrySum [] n.id }) =
        fun n => n := by
      funext n
      simp [entrySum_nil]
    simp [applyDeltas, hfun]
  | cons p ps ih =>
    have step : applyDeltas nodes (p :: ps) =
        applyDeltas
          (nodes.map (fun n =>
            if n.id == p.1 then { n with activation := n.activation + p.2 }
            else n)) ps := rfl
    rw [step, ih, List.map_map]
    apply List.map_congr_left
    intro n _
    by_cases hn : n.id = p.1
    · have hb1 : (n.id == p.1) = true := beq_iff_eq.mpr hn
      have hb2 : (p.1 == n.id) = true := beq_iff_eq.mpr hn.symm
      simp only [Function.comp_apply, hb1, if_true, entrySum_cons, hb2]
      simp only [Node.mk.injEq, and_true, true_and]
      ring
    · have hb1 : (n.id == p.1) = false := beq_eq_false_iff_ne.mpr hn
      have hb2 : (p.1 == n.id) = false :=
        beq_eq_false_iff_ne.mpr (fun h => hn h.symm)
      simp [Function.comp_apply, hb1, entrySum_cons, hb2, hn]

theorem entrySum_spreadStep (curiosity_mod : ℚ) (nodes : List Node)
    (acc : List (String × ℚ) × List Edge) (e : Edge) (t : String) :
    entrySum ((spreadStep curiosity_mod nodes acc e).1) t =
      entrySum acc.1 t + spreadTerm curiosity_mod nodes t e := by
  cases hf : nodes.find? (fun n => n.id == e.source_id) with
  | none => simp [spreadStep, spreadTerm, hf]
  | some src =>
    cases ha : src.is_active with
    | false => simp [spreadStep, spreadTerm, hf, ha]
    | true => simp [spreadStep, spreadTerm, hf, ha, entrySum_addDelta]

theorem entrySum_spread_foldl (curiosity_mod : ℚ) (nodes : List Node)
    (edges : List Edge) :
    ∀ (acc : List (String × ℚ) × List Edge) (t : String),
      entrySum ((edges.foldl (spreadStep curiosity_mod nodes) acc).1) t =
        entrySum acc.1 t + spreadSum curiosity_mod nodes edges t := by
  induction edges with
  | nil => intro acc t; simp [spreadSum]
  | cons e es ih =>
    intro acc t
    rw [List.foldl_cons, ih, entrySum_spreadStep]
    simp only [spreadSum, List.map_cons, List.sum_cons]
    ring

theorem entrySum_spreadPass (curiosity_mod : ℚ) (nodes : List Node)
    (edges : List Edge) (t : String) :
    entrySum ((spreadPass curiosity_mod nodes edges).1) t =
      spreadSum curiosity_mod nodes edges t := by
  rw [spreadPass, entrySum_spread_foldl]
  simp [entrySum_nil]

theorem sortDescBy_perm {α : Type} (k : α → ℚ) (l : List α) :
    List.Perm (sortDescBy k l) l :=
  List.perm_insertionSort _ l

theorem sortDescBy_sorted {α : Type} (k : α → ℚ) (l : List α) :
    (sortDescBy k l).Sorted (fun a b => k b ≤ k a) := by
  haveI h1 : IsTotal α (fun a b => k b ≤ k a) := ⟨fun a b => le_total (k b) (k a)⟩
  haveI h2 : IsTrans α (fun a b => k b ≤ k a) :=
    ⟨fun a b c hab hbc => le_trans hbc hab⟩
  exact List.sorted_insertionSort _ l

theorem supprFn_id (tbl : List (String × ℚ)) (m : Node) :
    (supprFn tbl m).id = m.id := by
  rcases h : tbl.find? (fun q => q.1 == m.id) with _ | q <;> simp [supprFn, h]

theorem find?_applySuppr (tbl : List (String × ℚ)) (nodes : List Node)
    (p : String) :
    (applySuppr tbl nodes).find? (fun m => m.id == p) =
      (nodes.find? (fun m => m.id == p)).map (supprFn tbl) := by
  induction nodes with
  | nil => rfl
  | cons a l ih =>
    show ((supprFn tbl a :: applySuppr tbl l).find? (fun m => m.id == p)) = _
    rw [List.find?_cons, List.find?_cons, supprFn_id]
    cases h : (a.id == p) <;> simp [h, ih]

theorem find?_eq_of_mem_nodup (l : List Node)
    (hnd : (l.map Node.id).Nodup) (X : Node) (hX : X ∈ l) :
    l.find? (fun m => m.id == X.id) = some X := by
  induction l with
  | nil => cases hX
  | cons a l ih =>
    rcases List.mem_cons.mp hX with rfl | hXl
    · rw [List.find?_cons, beq_self_eq_true]
    · by_cases hax : a.id = X.id
      · exfalso
        have : X.id ∈ l.map Node.id := List.mem_map_of_mem Node.id hXl
        rw [List.map_cons, List.nodup_cons] at hnd
        exact hnd.1 (hax ▸ this)
      · rw [List.find?_cons]
        have : (a.id == X.id) = false := beq_eq_false_iff_ne.mpr hax
        rw [this]
        exact ih (List.nodup_cons.mp (by rw [List.map_cons] at hnd; exact hnd)).2 hXl

theorem get_findIdx_of_mem (S : List Node) (hnd : (S.map Node.id).Nodup)
    (X : Node) (hX : X ∈ S) :
    ∃ h : S.findIdx (fun m => m.id == X.id) < S.length,
      S.get ⟨S.findIdx (fun m => m.id == X.id), h⟩ = X := by
  induction S with
  | nil => cases hX
  | cons a T ih =>
    rw [List.map_cons, List.nodup_cons] at hnd
    by_cases hax : a.id = X.id
    · have hXa : X = a := by
        rcases List.mem_cons.mp hX with rfl | hXT
        · rfl
        · exact absurd (hax ▸ List.mem_map_of_mem Node.id hXT) hnd.1
      have hfi : (a :: T).findIdx (fun m => m.id == X.id) = 0 := by
        rw [List.findIdx_cons]
        simp [beq_iff_eq.mpr hax]
      rw [hfi]
      exact ⟨Nat.succ_pos _, hXa.symm⟩
    · have hXT : X ∈ T := by
        rcases List.mem_cons.mp hX with rfl | hXT
        · exact absurd rfl hax
        · exact hXT
      rcases ih hnd.2 hXT with ⟨hlt, hget⟩
      have hfi : (a :: T).findIdx (fun m => m.id == X.id) =
          T.findIdx (fun m => m.id == X.id) + 1 := by
        rw [List.findIdx_cons]
        simp [beq_eq_false_iff_ne.mpr hax]
      rw [hfi]
      exact ⟨Nat.succ_lt_succ hlt, hget⟩

theorem supprTableAux_find_none (s : ℚ) (n : Nat) (T : List Node)
    (idX : String) (h : idX ∉ T.map Node.id) :
    ∀ k, (supprTableAux s n k T).find? (fun q => q.1 == idX) = none := by
  induction T with
  | nil => intro k; rfl
  | cons a T ih =>
    intro k
    rw [List.map_cons, List.mem_cons, not_or] at h
    show ((a.id, s * ((k : ℚ) / (n : ℚ))) ::
      supprTableAux s n (k + 1) T).find? (fun q => q.1 == idX) = none
    rw [List.find?_cons]
    have : (a.id == idX) = false := beq_eq_false_iff_ne.mpr (fun he => h.1 he.symm)
    rw [this]
    exact ih h.2 (k + 1)

theorem supprTableAux_find_mem (s : ℚ) (n : Nat) (T : List Node) (X : Node)
    (hnd : (T.map Node.id).Nodup) (hX : X ∈ T) :
    ∀ k, (supprTableAux s n k T).find? (fun q => q.1 == X.id) =
      some (X.id, s * (((k + T.findIdx (fun m => m.id == X.id) : Nat) : ℚ) / (n : ℚ))) := by
  induction T with
  | nil => cases hX
  | cons a T ih =>
    intro k
    rw [List.map_cons, List.nodup_cons] at hnd
    show ((a.id, s * ((k : ℚ) / (n : ℚ))) ::
      supprTableAux s n (k + 1) T).find? (fun q => q.1 == X.id) = _
    by_cases hax : a.id = X.id
    · have hXa : X = a := by
        rcases List.mem_cons.mp hX with rfl | hXT
        · rfl
        · exact absurd (hax ▸ List.mem_map_of_mem Node.id hXT) hnd.1
      subst hXa
      rw [List.find?_cons]
      simp only [beq_self_eq_true]
      have hfi : (X :: T).findIdx (fun m => m.id == X.id) = 0 := by
        rw [List.findIdx_cons]; simp
      rw [hfi, Nat.add_zero]
    · have hXT : X ∈ T := by
        rcases List.mem_cons.mp hX with rfl | hXT
        · exact absurd rfl hax
        · exact hXT
      rw [List.find?_cons]
      have hb : (a.id == X.id) = false := beq_eq_false_iff_ne.mpr hax
      rw [hb, ih hnd.2 hXT (k + 1)]
      have hfi : (a :: T).findIdx (fun m => m.id == X.id) =
          T.findIdx (fun m => m.id == X.id) + 1 := by
        rw [List.findIdx_cons]
        simp [beq_eq_false_iff_ne.mpr (fun he : a.id = X.id => hax he)]
      rw [hfi]
      have : k + 1 + T.findIdx (fun m => m.id == X.id) =
          k + (T.findIdx (fun m => m.id == X.id) + 1) := by omega
      rw [this]

theorem supprFn_act (s : ℚ) (n : Nat) (S : List Node)
    (hnd : (S.map Node.id).Nodup) (X : Node) (hX : X ∈ S) :
    (supprFn (supprTable s n S) X).activation =
      X.activation -
        s * (((S.findIdx (fun m => m.id == X.id) : Nat) : ℚ) / (n : ℚ)) := by
  cases S with
  | nil => cases hX
  | cons a T =>
    rw [List.map_cons, List.nodup_cons] at hnd
    by_cases hax : a.id = X.id
    · have hXa : X = a := by
        rcases List.mem_cons.mp hX with rfl | hXT
        · rfl
        · exact absurd (hax ▸ List.mem_map_of_mem Node.id hXT) hnd.1
      subst hXa
      have hnone : (supprTable s n (X :: T)).find? (fun q => q.1 == X.id) = none := by
        show (supprTableAux s n 1 T).find? (fun q => q.1 == X.id) = none
        exact supprTableAux_find_none s n T X.id (fun hm => hnd.1 hm) 1
      have hfi : (X :: T).findIdx (fun m => m.id == X.id) = 0 := by
        rw [List.findIdx_cons]; simp
      rw [supprFn, hnone, hfi]
      simp
    · have hXT : X ∈ T := by
        rcases List.mem_cons.mp hX with rfl | hXT
        · exact absurd rfl hax
        · exact hXT
      have hsome : (supprTable s n (a :: T)).find? (fun q => q.1 == X.id) =
          some (X.id, s * (((1 + T.findIdx (fun m => m.id == X.id) : Nat) : ℚ) / (n : ℚ))) := by
        show (supprTableAux s n 1 T).find? (fun q => q.1 == X.id) = _
        exact supprTableAux_find_mem s n T X hnd.2 hXT 1
      have hfi : (a :: T).findIdx (fun m => m.id == X.id) =
          T.findIdx (fun m => m.id == X.id) + 1 := by
        rw [List.findIdx_cons]
        simp [beq_eq_false_iff_ne.mpr (fun he : a.id = X.id => hax he)]
      rw [supprFn, hsome, hfi]
      have : (1 + T.findIdx (fun m => m.id == X.id)) =
          (T.findIdx (fun m => m.id == X.id) + 1) := by omega
      rw [this]

theorem findIdx_lt_of_act_gt (S : List Node)
    (hs : S.Sorted (fun a b => b.activation ≤ a.activation))
    (hnd : (S.map Node.id).Nodup) (X Y : Node) (hX : X ∈ S) (hY : Y ∈ S)
    (h : Y.activation < X.activation) :
    S.findIdx (fun m => m.id == X.id) < S.findIdx (fun m => m.id == Y.id) := by
  rcases get_findIdx_of_mem S hnd X hX with ⟨hiX, hgX⟩
  rcases get_findIdx_of_mem S hnd Y hY with ⟨hiY, hgY⟩
  by_contra hij
  push_neg at hij
  rcases lt_or_eq_of_le hij with hlt | heq
  · have hrel := List.Sorted.rel_get_of_lt hs
      (show (⟨S.findIdx (fun m => m.id == Y.id), hiY⟩ : Fin S.length) <
        ⟨S.findIdx (fun m => m.id == X.id), hiX⟩ from hlt)
    rw [hgX, hgY] at hrel
    exact absurd hrel (not_le.mpr h)
  · have : Y = X := by
      rw [← hgX, ← hgY]
      exact congrArg S.get (Fin.ext heq)
    subst this
    exact lt_irrefl _ h

theorem assembleLoop_nil_cands (max_words : Nat) (fuel : Nat)
    (current_pos : String) (selected : List WordCandidate)
    (used_words : List String) (rng : List Nat) :
    assembleLoop max_words fuel [] current_pos selected used_words rng =
      some (selected, rng) := by
  cases fuel <;> rfl

theorem two_le_length_of_mem {α : Type} {l : List α} {X Y : α}
    (hX : X ∈ l) (hY : Y ∈ l) (hne : X ≠ Y) : 2 ≤ l.length := by
  cases l with
  | nil => cases hX
  | cons a l2 =>
    cases l2 with
    | nil =>
      rcases List.mem_singleton.mp hX with rfl
      rcases List.mem_singleton.mp hY with rfl
      exact absurd rfl hne
    | cons b l3 => simp only [List.length_cons]; omega

theorem contains_iff_mem {l : List String} {a : String} :
    l.contains a = true ↔ a ∈ l := by
  induction l with
  | nil => simp
  | cons b l ih =>
    simp only [List.contains_cons, Bool.or_eq_true, beq_iff_eq, List.mem_cons, ih]

theorem aSetdefault_of_not_mem {β : Type} {l : List (String × β)} {k : String}
    (v : β) (h : k ∉ l.map Prod.fst) : aSetdefault l k v = l ++ [(k, v)] := by
  rw [aSetdefault, if_neg]
  intro hany
  rcases List.any_eq_true.mp hany with ⟨p, hp, hpk⟩
  exact h (beq_iff_eq.mp hpk ▸ List.mem_map_of_mem Prod.fst hp)

theorem aLookup_append_single {β : Type} {l : List (String × β)} {k : String}
    (v : β) (h : k ∉ l.map Prod.fst) : aLookup (l ++ [(k, v)]) k = some v := by
  induction l with
  | nil => simp [aLookup]
  | cons p ps ih =>
    rw [List.map_cons, List.mem_cons, not_or] at h
    rw [List.cons_append, aLookup, List.find?_cons]
    have : (p.1 == k) = false := beq_eq_false_iff_ne.mpr (fun he => h.1 he.symm)
    rw [this]
    exact ih h.2

theorem aLookup_aAppend (l : List (String × List Nat)) (k : String) (v : Nat) :
    aLookup (aAppend l k v) k = (aLookup l k).map (fun x => x ++ [v]) := by
  induction l with
  | nil => rfl
  | cons p ps ih =>
    show aLookup ((if p.1 == k then (p.1, p.2 ++ [v]) else p) :: aAppend ps k v) k = _
    cases h : (p.1 == k) with
    | true =>
      rw [if_pos rfl, aLookup, List.find?_cons]
      simp only [h]
      rw [aLookup, List.find?_cons, h]
      rfl
    | false =>
      simp only [Bool.false_eq_true, if_false]
      rw [aLookup, List.find?_cons, h, aLookup, List.find?_cons, h]
      exact ih

theorem aLookup_exists_of_mem_keys {β : Type} {l : List (String × β)}
    {k : String} (h : k ∈ l.map Prod.fst) : ∃ v, aLookup l k = some v := by
  induction l with
  | nil => cases h
  | cons p ps ih =>
    by_cases hpk : p.1 = k
    · exact ⟨p.2, by rw [aLookup, List.find?_cons, beq_iff_eq.mpr hpk]; rfl⟩
    · rw [List.map_cons, List.mem_cons] at h
      rcases h with h | h
      · exact absurd h.symm hpk
      · rcases ih h with ⟨v, hv⟩
        refine ⟨v, ?_⟩
        rw [aLookup, List.find?_cons, beq_eq_false_iff_ne.mpr hpk]
        exact hv

theorem filter_keyEq_orderedInsert {α : Type} (k : α → ℚ) (v : ℚ) (a : α)
    (l : List α) :
    (List.orderedInsert (fun x y => k y ≤ k x) a l).filter
        (fun x => decide (k x = v)) =
      if k a = v then a :: l.filter (fun x => decide (k x = v))
      else l.filter (fun x => decide (k x = v)) := by
  rw [List.orderedInsert_eq_take_drop, List.filter_append, List.filter_cons]
  have hsplit : l.filter (fun x => decide (k x = v)) =
      (l.takeWhile fun b => ¬ k b ≤ k a).filter (fun x => decide (k x = v)) ++
        (l.dropWhile fun b => ¬ k b ≤ k a).filter (fun x => decide (k x = v)) := by
    rw [← List.filter_append, List.takeWhile_append_dropWhile]
  by_cases hv : k a = v
  · have htw : (l.takeWhile fun b => ¬ k b ≤ k a).filter
        (fun x => decide (k x = v)) = [] := by
      rw [List.filter_eq_nil_iff]
      intro x hx
      have hpx : ¬ (k x ≤ k a) := by simpa using List.mem_takeWhile_imp hx
      simp only [decide_eq_true_eq]
      intro hxv
      exact hpx (le_of_eq (by rw [hxv, hv]))
    rw [htw, hsplit, htw]
    simp [hv]
  · rw [hsplit]
    simp [hv]

theorem filter_keyEq_sortDescBy {α : Type} (k : α → ℚ) (v : ℚ) (l : List α) :
    (sortDescBy k l).filter (fun x => decide (k x = v)) =
      l.filter (fun x => decide (k x = v)) := by
  induction l with
  | nil => rfl
  | cons a l ih =>
    show (List.orderedInsert (fun x y => k y ≤ k x) a
      (List.insertionSort (fun x y => k y ≤ k x) l)).filter
        (fun x => decide (k x = v)) = _
    rw [filter_keyEq_orderedInsert, List.filter_cons]
    by_cases hv : k a = v
    · rw [if_pos hv, if_pos (by simp [hv])]
      exact congrArg (a :: ·) ih
    · rw [if_neg hv, if_neg (by simp [hv])]
      exact ih

/-! ## Claim theorems -/

/-- Claim C3 (confirmed).  Clamp invariant: after any completed
simulation step of `run_dynamics` — i.e. on the node state `runStep`
hands to the step record and to the next step — every node's activation
lies in [0,1]; consequently the final activation snapshot of any run
with at least one step lies in [0,1] as well. -/
theorem claim_c3_clamp_invariant :
    (∀ (config : DynamicsConfig) (cur : ℚ) (st : StepState) (i : Nat),
      ∀ n ∈ ((runStep config cur st i).1).nodes,
        0 ≤ n.activation ∧ n.activation ≤ 1) ∧
    (∀ (g : BrainGraph) (ia : List (String × ℚ)) (config : DynamicsConfig)
        (mods : List (String × ℚ)), 1 ≤ config.steps →
      ∀ p ∈ (run_dynamics g ia config mods).1.final_activations,
        0 ≤ p.2 ∧ p.2 ≤ 1) := by
  constructor
  · exact runStep_nodes_bounds
  · intro g ia config mods hs p hp
    have hp2 : p ∈ (runSteps config (curiosityOf mods)
        config.steps 0
        ⟨injectAll (g.nodes.map Node.reset) ia,
          g.edges.map (fun e => { e with contribution := 0 })⟩).1.nodes.map
          (fun n => (n.id, n.activation)) := hp
    rcases runSteps_final_shape config (curiosityOf mods) config.steps 0 _ hs with
      ⟨st0, j, hj⟩
    rw [hj] at hp2
    rcases List.mem_map.mp hp2 with ⟨n, hn, rfl⟩
    exact runStep_nodes_bounds config (curiosityOf mods) st0 j n hn

set_option maxRecDepth 8000 in
unseal Rat.mul Rat.add Rat.inv Rat.sub in
theorem claim_c3_clamp_invariant_witness :
    (0 ≤ wNodeA.activation ∧ wNodeA.activation ≤ 1) ∧
    (0 ≤ ((("a"), (0 : ℚ))).2 ∧ ((("a"), (0 : ℚ))).2 ≤ 1) :=
  ⟨claim_c3_clamp_invariant.1 defaultConfig (1/2) ⟨[wNodeA], []⟩ 0 wNodeA
     (by decide),
   claim_c3_clamp_invariant.2 wG3 [] defaultConfig defaultModulators
     (by decide) (("a"), (0 : ℚ)) (by decide)⟩

/-- Claim C6, counterexample.  The claim asserts strict approach to the
baseline for every decay in [0,1]; at `decay = 0` the decay pass leaves
the activation's distance to the baseline unchanged. -/
theorem claim_c6_counterexample :
    0 ≤ c6Node.decay ∧ c6Node.decay ≤ 1 ∧
    ¬ (|(decayNode c6Node).activation - c6Node.baseline| <
        |c6Node.activation - c6Node.baseline|) := by
  refine ⟨le_refl 0, zero_le_one, ?_⟩
  norm_num [decayNode, c6Node]

/-- Claim C6 (corrected).  Amended decay property: with decay in [0,1]
the decay pass never moves the activation farther from the baseline and
never overshoots past it (the new and old signed distances have the same
sign or vanish); the approach is strict exactly when the decay is
positive and the node is not already at its baseline — stated as a
biconditional, so decay 0 or a node at its baseline never strictly
approaches. -/
theorem claim_c6_amended_decay (n : Node) (h0 : 0 ≤ n.decay)
    (h1 : n.decay ≤ 1) :
    |(decayNode n).activation - n.baseline| ≤ |n.activation - n.baseline| ∧
    0 ≤ ((decayNode n).activation - n.baseline) * (n.activation - n.baseline) ∧
    (|(decayNode n).activation - n.baseline| < |n.activation - n.baseline| ↔
      (0 < n.decay ∧ n.activation ≠ n.baseline)) := by
  have hkey : (decayNode n).activation - n.baseline =
      (n.activation - n.baseline) * (1 - n.decay) := by
    simp only [decayNode]
    ring
  have habs : |(decayNode n).activation - n.baseline| =
      |n.activation - n.baseline| * (1 - n.decay) := by
    rw [hkey, abs_mul, abs_of_nonneg (by linarith : (0:ℚ) ≤ 1 - n.decay)]
  refine ⟨?_, ?_, ?_, ?_⟩
  · rw [habs]
    calc |n.activation - n.baseline| * (1 - n.decay)
        ≤ |n.activation - n.baseline| * 1 :=
          mul_le_mul_of_nonneg_left (by linarith) (abs_nonneg _)
      _ = |n.activation - n.baseline| := mul_one _
  · rw [hkey]
    nlinarith [sq_nonneg (n.activation - n.baseline)]
  · intro hlt
    constructor
    · rcases lt_or_eq_of_le h0 with hd | hd0
      · exact hd
      · exfalso
        rw [habs, ← hd0, sub_zero, mul_one] at hlt
        exact lt_irrefl _ hlt
    · intro hb
      rw [habs, hb, sub_self, abs_zero, zero_mul] at hlt
      exact absurd hlt (lt_irrefl 0)
  · rintro ⟨hd, hne⟩
    rw [habs]
    have hpos : 0 < |n.activation - n.baseline| :=
      abs_pos.mpr (sub_ne_zero.mpr hne)
    nlinarith

unseal Rat.mul Rat.add Rat.inv Rat.sub in
theorem claim_c6_amended_decay_witness :
    |(decayNode c6WitnessNode).activation - c6WitnessNode.baseline| ≤
      |c6WitnessNode.activation - c6WitnessNode.baseline| ∧
    0 ≤ ((decayNode c6WitnessNode).activation - c6WitnessNode.baseline) *
      (c6WitnessNode.activation - c6WitnessNode.baseline) ∧
    (|(decayNode c6WitnessNode).activation - c6WitnessNode.baseline| <
        |c6WitnessNode.activation - c6WitnessNode.baseline| ↔
      (0 < c6WitnessNode.decay ∧
        c6WitnessNode.activation ≠ c6WitnessNode.baseline)) :=
  claim_c6_amended_decay c6WitnessNode (by decide) (by decide)

/-- Claim C9 (confirmed).  Frame property: `select_goal` and
`generate_response` perform no assignment to the graph — their
state-passing forms return the graph they received, so every node field,
every edge field, and both adjacency indices are unchanged. -/
theorem claim_c9_frame (g : BrainGraph) (lex : Lexicon) (goal_id : String)
    (rng : List Nat) (recent_words : List String) (max_words : Nat) :
    (select_goalS g).2 = g ∧
    (select_goalS g).2.nodes = g.nodes ∧
    (select_goalS g).2.edges = g.edges ∧
    (select_goalS g).2.outgoing = g.outgoing ∧
    (select_goalS g).2.incoming = g.incoming ∧
    (generate_responseS g lex goal_id rng recent_words max_words).2 = g ∧
    (generate_responseS g lex goal_id rng recent_words max_words).2.nodes.map
      Node.activation = g.nodes.map Node.activation ∧
    (generate_responseS g lex goal_id rng recent_words max_words).2.nodes =
      g.nodes ∧
    (generate_responseS g lex goal_id rng recent_words max_words).2.edges =
      g.edges ∧
    (generate_responseS g lex goal_id rng recent_words max_words).2.outgoing =
      g.outgoing ∧
    (generate_responseS g lex goal_id rng recent_words max_words).2.incoming =
      g.incoming :=
  ⟨rfl, rfl, rfl, rfl, rfl, rfl, rfl, rfl, rfl, rfl, rfl⟩

/-- Claim C1 (confirmed).  Determinism of the full pipeline: the
embedding exhibits one turn (`run_dynamics`, then `select_goal`, then
`generate_response`) as a pure function of the graph, the injected
activations, the configuration and modulators, the lexicon, the seeded
random stream, and the recent-words sequence; two runs on equal inputs
therefore agree on the step records, the final activation snapshot, the
top-contributing-edge ranking, the goal result, and the generated
text. -/
theorem claim_c1_pipeline_determinism (g : BrainGraph)
    (ia : List (String × ℚ)) (config : DynamicsConfig)
    (mods : List (String × ℚ)) (lex : Lexicon) (rng : List Nat)
    (recent_words : List String)
    (out1 out2 : DynamicsResult × GoalResult × Option (MotorResult × List Nat))
    (h1 : out1 = pipeline g ia config mods lex rng recent_words)
    (h2 : out2 = pipeline g ia config mods lex rng recent_words) :
    out1.1.steps = out2.1.steps ∧
    out1.1.final_activations = out2.1.final_activations ∧
    out1.1.top_contributing_edges = out2.1.top_contributing_edges ∧
    out1.2.1 = out2.2.1 ∧
    (out1.2.2).map (fun p => p.1.final_text) =
      (out2.2.2).map (fun p => p.1.final_text) ∧
    out1.2.2 = out2.2.2 := by
  subst h1
  subst h2
  exact ⟨rfl, rfl, rfl, rfl, rfl, rfl⟩

theorem claim_c1_pipeline_determinism_witness :
    wPipelineOut.1.steps = wPipelineOut.1.steps ∧
    wPipelineOut.1.final_activations = wPipelineOut.1.final_activations ∧
    wPipelineOut.1.top_contributing_edges =
      wPipelineOut.1.top_contributing_edges ∧
    wPipelineOut.2.1 = wPipelineOut.2.1 ∧
    (wPipelineOut.2.2).map (fun p => p.1.final_text) =
      (wPipelineOut.2.2).map (fun p => p.1.final_text) ∧
    wPipelineOut.2.2 = wPipelineOut.2.2 :=
  claim_c1_pipeline_determinism BrainGraph.empty [] defaultConfig
    defaultModulators ⟨[], [], []⟩ [] [] wPipelineOut wPipelineOut rfl rfl

/-- Claim C4 (confirmed).  The spread pass: per-edge spread is
`source.activation * weight` transformed by edge type (inhibitory forced
negative, associative scaled by `0.5 + curiosity*0.5` with curiosity
defaulting to 0.5 when absent, causal scaled by 0.8, excitatory
unchanged); the per-target deltas are summed over all edges whose source
is firing and applied only after the whole edge list has been evaluated,
every source activation being read from the fixed pre-spread node
list. -/
theorem claim_c4_spread_pass :
    (∀ (cur : ℚ) (src : Node) (e : Edge), e.type = ("inhibitory") →
      edgeSpread cur src e = -(abs (src.activation * e.weight))) ∧
    (∀ (cur : ℚ) (src : Node) (e : Edge), e.type = ("associative") →
      edgeSpread cur src e = (src.activation * e.weight) * (1/2 + cur * (1/2))) ∧
    (∀ (cur : ℚ) (src : Node) (e : Edge), e.type = ("causal") →
      edgeSpread cur src e = (src.activation * e.weight) * (8/10)) ∧
    (∀ (cur : ℚ) (src : Node) (e : Edge), e.type = ("excitatory") →
      edgeSpread cur src e = src.activation * e.weight) ∧
    (∀ mods : List (String × ℚ), aLookup mods ("curiosity") = none →
      curiosityOf mods = 1/2) ∧
    (∀ (cur : ℚ) (nodes : List Node) (edges : List Edge),
      applyDeltas nodes (spreadPass cur nodes edges).1 =
        nodes.map (fun n =>
          { n with activation :=
              n.activation + spreadSum cur nodes edges n.id })) := by
  refine ⟨?_, ?_, ?_, ?_, ?_, ?_⟩
  · intro cur src e h; simp [edgeSpread, h]
  · intro cur src e h; simp [edgeSpread, h]
  · intro cur src e h; simp [edgeSpread, h]
  · intro cur src e h; simp [edgeSpread, h]
  · intro mods h; simp [curiosityOf, h]
  · intro cur nodes edges
    rw [applyDeltas_eq_map]
    apply List.map_congr_left
    intro n _
    rw [entrySum_spreadPass]

unseal Rat.mul Rat.add Rat.inv Rat.sub in
/-- Claim C5, counterexample.  The claim quantifies over every
simulation step with competition enabled, but the configuration admits a
negative `inhibition_strength`, under which rank-based "suppression"
boosts lower ranks and inverts the pre-competition ranking: with
strength `-1`, node `b` (activation 0.4) overtakes node `a`
(activation 0.5) in their shared category. -/
theorem claim_c5_counterexample :
    c5B.activation < c5A.activation ∧
    c5A.is_active = true ∧ c5B.is_active = true ∧
    c5A.type = ("concept") ∧ c5B.type = ("concept") ∧
    ¬ (getAct c5Post c5B.id ≤ getAct c5Post c5A.id) := by
  refine ⟨by decide, rfl, rfl, rfl, rfl, by decide⟩

/-- Claim C5 (corrected).  Amended competition-ordering property: with a
nonnegative configured `inhibition_strength` (the default is 0.15), if
two nodes of the same category are both firing when the category's
competition pass runs and `X` strictly outranks `Y` by activation, then
after the pass `X`'s activation is still at least `Y`'s — the top rank
gets no suppression and suppression `strength * (rank / firing_count)`
grows with rank, so the ranking never inverts. -/
theorem claim_c5_amended_competition_order (s : ℚ) (hs : 0 ≤ s)
    (t : String) (nodes : List Node) (hnd : (nodes.map Node.id).Nodup)
    (X Y : Node) (hX : X ∈ nodes) (hY : Y ∈ nodes)
    (hXt : X.type = t) (hYt : Y.type = t)
    (hXa : X.is_active = true) (hYa : Y.is_active = true)
    (hgt : Y.activation < X.activation) :
    getAct (competeType s t nodes) Y.id ≤ getAct (competeType s t nodes) X.id := by
  have hXY : X ≠ Y := fun h => absurd hgt (h ▸ lt_irrefl _)
  have hXtn : X ∈ nodes.filter (fun n => n.type == t) :=
    List.mem_filter.mpr ⟨hX, by simp [hXt]⟩
  have hYtn : Y ∈ nodes.filter (fun n => n.type == t) :=
    List.mem_filter.mpr ⟨hY, by simp [hYt]⟩
  have hXA : X ∈ (nodes.filter (fun n => n.type == t)).filter
      (fun n => n.is_active) := List.mem_filter.mpr ⟨hXtn, hXa⟩
  have hYA : Y ∈ (nodes.filter (fun n => n.type == t)).filter
      (fun n => n.is_active) := List.mem_filter.mpr ⟨hYtn, hYa⟩
  have h2tn : 2 ≤ (nodes.filter (fun n => n.type == t)).length :=
    two_le_length_of_mem hXtn hYtn hXY
  have h2A : 2 ≤ ((nodes.filter (fun n => n.type == t)).filter
      (fun n => n.is_active)).length :=
    two_le_length_of_mem hXA hYA hXY
  have hform : competeType s t nodes =
      applySuppr
        (supprTable s
          ((nodes.filter (fun n => n.type == t)).filter
            (fun n => n.is_active)).length
          (sortDescBy Node.activation
            ((nodes.filter (fun n => n.type == t)).filter
              (fun n => n.is_active))))
        nodes := by
    rw [competeType, if_neg (by omega), if_neg (by omega)]
  set A := (nodes.filter (fun n => n.type == t)).filter (fun n => n.is_active)
    with hA
  set S := sortDescBy Node.activation A with hS
  have hperm : List.Perm S A := sortDescBy_perm _ _
  have hndA : (A.map Node.id).Nodup := by
    have hsub : List.Sublist (A.map Node.id) (nodes.map Node.id) :=
      List.Sublist.map Node.id
        (List.Sublist.trans (List.filter_sublist _) (List.filter_sublist _))
    exact List.Nodup.sublist hsub hnd
  have hndS : (S.map Node.id).Nodup := ((hperm.map Node.id).nodup_iff).mpr hndA
  have hXS : X ∈ S := hperm.mem_iff.mpr hXA
  have hYS : Y ∈ S := hperm.mem_iff.mpr hYA
  have hgetX : getAct (competeType s t nodes) X.id =
      X.activation -
        s * (((S.findIdx (fun m => m.id == X.id) : Nat) : ℚ) / (A.length : ℚ)) := by
    rw [hform, getAct, find?_applySuppr, find?_eq_of_mem_nodup nodes hnd X hX,
      Option.map_map]
    show (supprFn (supprTable s A.length S) X).activation = _
    exact supprFn_act s A.length S hndS X hXS
  have hgetY : getAct (competeType s t nodes) Y.id =
      Y.activation -
        s * (((S.findIdx (fun m => m.id == Y.id) : Nat) : ℚ) / (A.length : ℚ)) := by
    rw [hform, getAct, find?_applySuppr, find?_eq_of_mem_nodup nodes hnd Y hY,
      Option.map_map]
    show (supprFn (supprTable s A.length S) Y).activation = _
    exact supprFn_act s A.length S hndS Y hYS
  have hrank : S.findIdx (fun m => m.id == X.id) <
      S.findIdx (fun m => m.id == Y.id) :=
    findIdx_lt_of_act_gt S (sortDescBy_sorted Node.activation A) hndS X Y hXS hYS hgt
  have hn0 : (0 : ℚ) < (A.length : ℚ) := by
    have : 0 < A.length := by omega
    exact_mod_cast this
  have hmono : s * (((S.findIdx (fun m => m.id == X.id) : Nat) : ℚ) / (A.length : ℚ)) ≤
      s * (((S.findIdx (fun m => m.id == Y.id) : Nat) : ℚ) / (A.length : ℚ)) := by
    gcongr
  rw [hgetX, hgetY]
  linarith

unseal Rat.mul Rat.add Rat.inv Rat.sub in
/-- Claim C2, counterexample.  The claim promises the fallback utterance
whenever the candidate list after steps 1-2 is empty; but with a firing
concept node and an empty lexicon the candidate list is empty while the
output is the empty string, not "i am processing" — the source emits the
fallback only when no concept/topic/emotion node fires at all. -/
theorem claim_c2_counterexample :
    allCandidates c2Graph emptyLexicon ("goal_inform") (lastN 20 []) = [] ∧
    generate_response c2Graph emptyLexicon ("goal_inform") [] [] 15 =
      some (⟨[], [], ("")⟩, []) ∧
    (("") : String) ≠ ("i am processing") := by
  refine ⟨by decide, by decide, by decide⟩

/-- Claim C2 (corrected).  Amended fallback property: generation never
raises for lack of candidates; the output is the literal fallback
utterance "i am processing" exactly when no concept/topic/emotion node
is firing (so step 2 is never reached), and when some such node fires
but the candidate list after steps 1-2 is empty, generation stops with
an empty selection and empty output text. -/
theorem claim_c2_amended_fallback :
    (∀ (g : BrainGraph) (lex : Lexicon) (goal_id : String) (rng : List Nat)
        (recent_words : List String) (max_words : Nat),
      activeConcepts g = [] →
      generate_response g lex goal_id rng recent_words max_words =
        some (⟨[], [], ("i am processing")⟩, rng)) ∧
    (∀ (g : BrainGraph) (lex : Lexicon) (goal_id : String) (rng : List Nat)
        (recent_words : List String) (max_words : Nat),
      activeConcepts g ≠ [] →
      allCandidates g lex goal_id (lastN 20 recent_words) = [] →
      generate_response g lex goal_id rng recent_words max_words =
        some (⟨[], [], ("")⟩, rng)) := by
  constructor
  · intro g lex goal_id rng recent_words max_words h
    rw [generate_response, genWithRecentSet, h]
    rfl
  · intro g lex goal_id rng recent_words max_words hne hc
    have hfalse : (activeConcepts g).isEmpty = false := by
      rcases h : activeConcepts g with _ | ⟨a, as⟩
      · exact absurd h hne
      · rfl
    rw [generate_response, genWithRecentSet, hfalse, hc]
    simp only [assembleLoop_nil_cands, sortDescBy, List.insertionSort,
      List.map_nil, Bool.false_eq_true, if_false]
    rfl

unseal Rat.mul Rat.add Rat.inv Rat.sub in
theorem claim_c2_amended_fallback_witness :
    generate_response BrainGraph.empty emptyLexicon ("goal_inform") [] [] 15 =
      some (⟨[], [], ("i am processing")⟩, []) ∧
    generate_response c2Graph emptyLexicon ("goal_inform") [] [] 15 =
      some (⟨[], [], ("")⟩, []) :=
  ⟨claim_c2_amended_fallback.1 BrainGraph.empty emptyLexicon ("goal_inform")
      [] [] 15 rfl,
   claim_c2_amended_fallback.2 c2Graph emptyLexicon ("goal_inform")
      [] [] 15 (by decide) (by decide)⟩

unseal Rat.mul Rat.add Rat.inv Rat.sub in
/-- Concrete firing pair of the C5 witness, with the default inhibition
strength. -/
theorem claim_c5_amended_competition_order_witness :
    getAct (competeType (15/100) ("concept") c5Nodes) c5B.id ≤
      getAct (competeType (15/100) ("concept") c5Nodes) c5A.id :=
  claim_c5_amended_competition_order (15/100) (by decide) ("concept") c5Nodes
    (by decide) c5A c5B (by decide) (by decide) rfl rfl (by decide) (by decide)
    (by decide)

/-- Claim C7 (confirmed).  For a well-formed graph: `add_node` fails
with a duplicate-identifier error iff the id is already present, leaving
the graph unchanged; otherwise it appends the node and initializes empty
adjacency entries for it.  `add_edge` fails with a dangling-reference
error iff either endpoint id is absent, leaving the graph unchanged;
otherwise it appends the edge to the edge list and to both adjacency
indices. -/
theorem claim_c7_graph_insertion (g : BrainGraph) (hwf : g.wf)
    (n : Node) (e : Edge) :
    (((g.add_node n).1 ≠ none) ↔ n.id ∈ g.nodeIds) ∧
    ((g.add_node n).1 ≠ none → (g.add_node n).2 = g) ∧
    (n.id ∉ g.nodeIds →
      (g.add_node n).1 = none ∧
      (g.add_node n).2.nodes = g.nodes ++ [n] ∧
      (g.add_node n).2.edges = g.edges ∧
      aLookup (g.add_node n).2.outgoing n.id = some [] ∧
      aLookup (g.add_node n).2.incoming n.id = some []) ∧
    (((g.add_edge e).1 ≠ none) ↔
      (e.source_id ∉ g.nodeIds ∨ e.target_id ∉ g.nodeIds)) ∧
    ((g.add_edge e).1 ≠ none → (g.add_edge e).2 = g) ∧
    (e.source_id ∈ g.nodeIds → e.target_id ∈ g.nodeIds →
      (g.add_edge e).1 = none ∧
      (g.add_edge e).2.nodes = g.nodes ∧
      (g.add_edge e).2.edges = g.edges ++ [e] ∧
      (∃ prev, aLookup g.outgoing e.source_id = some prev ∧
        aLookup (g.add_edge e).2.outgoing e.source_id =
          some (prev ++ [g.edges.length])) ∧
      (∃ prev, aLookup g.incoming e.target_id = some prev ∧
        aLookup (g.add_edge e).2.incoming e.target_id =
          some (prev ++ [g.edges.length]))) := by
  rcases hwf with ⟨hout, hinc, _⟩
  refine ⟨?_, ?_, ?_, ?_, ?_, ?_⟩
  · by_cases hmem : n.id ∈ g.nodeIds
    · rw [BrainGraph.add_node, if_pos (contains_iff_mem.mpr hmem)]
      simp [hmem]
    · rw [BrainGraph.add_node,
        if_neg (fun hc => hmem (contains_iff_mem.mp hc))]
      simp [hmem]
  · intro hne
    by_cases hmem : n.id ∈ g.nodeIds
    · rw [BrainGraph.add_node, if_pos (contains_iff_mem.mpr hmem)]
    · rw [BrainGraph.add_node,
        if_neg (fun hc => hmem (contains_iff_mem.mp hc))] at hne
      exact absurd rfl hne
  · intro hmem
    rw [BrainGraph.add_node,
      if_neg (fun hc => hmem (contains_iff_mem.mp hc))]
    have hkeyo : n.id ∉ g.outgoing.map Prod.fst := by rw [hout]; exact hmem
    have hkeyi : n.id ∉ g.incoming.map Prod.fst := by rw [hinc]; exact hmem
    exact ⟨rfl, rfl, rfl,
      by rw [aSetdefault_of_not_mem _ hkeyo]; exact aLookup_append_single _ hkeyo,
      by rw [aSetdefault_of_not_mem _ hkeyi]; exact aLookup_append_single _ hkeyi⟩
  · by_cases hsm : e.source_id ∈ g.nodeIds
    · by_cases htm : e.target_id ∈ g.nodeIds
      · rw [BrainGraph.add_edge,
          if_neg (by simp [hsm]),
          if_neg (by simp [htm])]
        simp [hsm, htm]
      · rw [BrainGraph.add_edge,
          if_neg (by simp [hsm]),
          if_pos (by simp [htm])]
        simp [htm]
    · rw [BrainGraph.add_edge,
        if_pos (by simp [hsm])]
      simp [hsm]
  · intro hne
    by_cases hsm : e.source_id ∈ g.nodeIds
    · by_cases htm : e.target_id ∈ g.nodeIds
      · rw [BrainGraph.add_edge,
          if_neg (by simp [hsm]),
          if_neg (by simp [htm])] at hne
        exact absurd rfl hne
      · rw [BrainGraph.add_edge,
          if_neg (by simp [hsm]),
          if_pos (by simp [htm])]
    · rw [BrainGraph.add_edge,
        if_pos (by simp [hsm])]
  · intro hsm htm
    rw [BrainGraph.add_edge,
      if_neg (by simp [hsm]),
      if_neg (by simp [htm])]
    have hkeyo : e.source_id ∈ g.outgoing.map Prod.fst := by rw [hout]; exact hsm
    have hkeyi : e.target_id ∈ g.incoming.map Prod.fst := by rw [hinc]; exact htm
    rcases aLookup_exists_of_mem_keys hkeyo with ⟨po, hpo⟩
    rcases aLookup_exists_of_mem_keys hkeyi with ⟨pi, hpi⟩
    refine ⟨rfl, rfl, rfl, ⟨po, hpo, ?_⟩, ⟨pi, hpi, ?_⟩⟩
    · show aLookup (aAppend g.outgoing e.source_id g.edges.length)
        e.source_id = _
      rw [aLookup_aAppend, hpo]
      rfl
    · show aLookup (aAppend g.incoming e.target_id g.edges.length)
        e.target_id = _
      rw [aLookup_aAppend, hpi]
      rfl

unseal Rat.mul Rat.add Rat.inv Rat.sub in
theorem claim_c7_graph_insertion_witness :
    (((wG7.add_node wN7).1 ≠ none) ↔ wN7.id ∈ wG7.nodeIds) ∧
    ((wG7.add_node wN7).1 ≠ none → (wG7.add_node wN7).2 = wG7) ∧
    (wN7.id ∉ wG7.nodeIds →
      (wG7.add_node wN7).1 = none ∧
      (wG7.add_node wN7).2.nodes = wG7.nodes ++ [wN7] ∧
      (wG7.add_node wN7).2.edges = wG7.edges ∧
      aLookup (wG7.add_node wN7).2.outgoing wN7.id = some [] ∧
      aLookup (wG7.add_node wN7).2.incoming wN7.id = some []) ∧
    (((wG7.add_edge wE7).1 ≠ none) ↔
      (wE7.source_id ∉ wG7.nodeIds ∨ wE7.target_id ∉ wG7.nodeIds)) ∧
    ((wG7.add_edge wE7).1 ≠ none → (wG7.add_edge wE7).2 = wG7) ∧
    (wE7.source_id ∈ wG7.nodeIds → wE7.target_id ∈ wG7.nodeIds →
      (wG7.add_edge wE7).1 = none ∧
      (wG7.add_edge wE7).2.nodes = wG7.nodes ∧
      (wG7.add_edge wE7).2.edges = wG7.edges ++ [wE7] ∧
      (∃ prev, aLookup wG7.outgoing wE7.source_id = some prev ∧
        aLookup (wG7.add_edge wE7).2.outgoing wE7.source_id =
          some (prev ++ [wG7.edges.length])) ∧
      (∃ prev, aLookup wG7.incoming wE7.target_id = some prev ∧
        aLookup (wG7.add_edge wE7).2.incoming wE7.target_id =
          some (prev ++ [wG7.edges.length]))) :=
  claim_c7_graph_insertion wG7 (by decide) wN7 wE7

/-- Claim C8 (confirmed).  `select_goal`: with no goal-category nodes it
returns no selection and an empty candidate list without raising; with
at least one goal node its candidate list is exactly the goal nodes'
`(id, activation)` pairs sorted descending by activation with ties kept
in original node insertion order (stability expressed per activation
value), and the head of that list is selected regardless of any
threshold. -/
theorem claim_c8_select_goal (g : BrainGraph) :
    (g.get_nodes_by_type ("goal") = [] →
      select_goal g = ⟨[], none, 0⟩) ∧
    (g.get_nodes_by_type ("goal") ≠ [] →
      List.Perm (select_goal g).candidates
        ((g.get_nodes_by_type ("goal")).map (fun n => (n.id, n.activation))) ∧
      (select_goal g).candidates.Sorted (fun a b => b.2 ≤ a.2) ∧
      (∀ v : ℚ, (select_goal g).candidates.filter (fun p => decide (p.2 = v)) =
        ((g.get_nodes_by_type ("goal")).map
          (fun n => (n.id, n.activation))).filter (fun p => decide (p.2 = v))) ∧
      (∃ c rest, (select_goal g).candidates = c :: rest ∧
        (select_goal g).selected_goal = some c.1 ∧
        (select_goal g).selected_activation = c.2)) := by
  constructor
  · intro h
    simp only [select_goal, h]
    rfl
  · intro hne
    have key : ∃ c rest, sortDescBy (fun p => (p.2 : ℚ))
        ((g.get_nodes_by_type ("goal")).map (fun n => (n.id, n.activation))) =
          c :: rest := by
      rcases hL : sortDescBy (fun p => (p.2 : ℚ))
          ((g.get_nodes_by_type ("goal")).map
            (fun n => (n.id, n.activation))) with _ | ⟨c, rest⟩
      · exfalso
        have hperm := sortDescBy_perm (fun p => (p.2 : ℚ))
          ((g.get_nodes_by_type ("goal")).map (fun n => (n.id, n.activation)))
        rw [hL] at hperm
        have := hperm.symm.eq_nil
        rw [List.map_eq_nil_iff] at this
        exact hne this
      · exact ⟨c, rest, hL⟩
    rcases key with ⟨c, rest, hL⟩
    have hfalse : (g.get_nodes_by_type ("goal")).isEmpty = false := by
      rcases h2 : g.get_nodes_by_type ("goal") with _ | _
      · exact absurd h2 hne
      · rfl
    have hsel : select_goal g = ⟨c :: rest, some c.1, c.2⟩ := by
      simp only [select_goal, hfalse, Bool.false_eq_true, if_false, hL]
    refine ⟨?_, ?_, ?_, c, rest, by rw [hsel], by rw [hsel], by rw [hsel]⟩
    · rw [hsel]
      show List.Perm (c :: rest) _
      rw [← hL]
      exact sortDescBy_perm _ _
    · rw [hsel]
      show List.Sorted _ (c :: rest)
      rw [← hL]
      exact sortDescBy_sorted _ _
    · intro v
      rw [hsel]
      show List.filter _ (c :: rest) = _
      rw [← hL]
      exact filter_keyEq_sortDescBy _ v _

unseal Rat.mul Rat.add Rat.inv Rat.sub in
theorem claim_c8_select_goal_witness :
    List.Perm (select_goal wG8).candidates
      ((wG8.get_nodes_by_type ("goal")).map (fun n => (n.id, n.activation))) ∧
    ((select_goal wG8).candidates.filter (fun p => decide (p.2 = 1/2)) =
      ((wG8.get_nodes_by_type ("goal")).map
        (fun n => (n.id, n.activation))).filter (fun p => decide (p.2 = 1/2))) ∧
    (∃ c rest, (select_goal wG8).candidates = c :: rest ∧
      (select_goal wG8).selected_goal = some c.1 ∧
      (select_goal wG8).selected_activation = c.2) :=
  ⟨((claim_c8_select_goal wG8).2 (by decide)).1,
   ((claim_c8_select_goal wG8).2 (by decide)).2.2.1 (1/2),
   ((claim_c8_select_goal wG8).2 (by decide)).2.2.2⟩

/-- Claim C10 (confirmed).  Repetition suppression reads exactly the
last 20 entries of `recent_words`: a candidate's score carries the 0.3
multiplier precisely when its surface form is among those entries, and
two calls identical except in older entries produce identical results
(candidate scores, selected words, and final text alike). -/
theorem claim_c10_recent_words :
    (∀ (g : BrainGraph) (goal_id : String) (recent_words : List String)
        (concept_id word_text : String) (concept_act : ℚ),
      conceptCandScore g goal_id (lastN 20 recent_words) concept_id
          concept_act word_text =
        (if (lastN 20 recent_words).contains word_text then (3/10 : ℚ) else 1) *
          conceptCandScore g goal_id [] concept_id concept_act word_text) ∧
    (∀ (recent_words : List String) (act : ℚ) (word_text : String),
      motorCandScore (lastN 20 recent_words) act word_text =
        (if (lastN 20 recent_words).contains word_text then (3/10 : ℚ) else 1) *
          motorCandScore [] act word_text) ∧
    (∀ (g : BrainGraph) (lex : Lexicon) (goal_id : String) (rng : List Nat)
        (max_words : Nat) (r1 r2 : List String),
      lastN 20 r1 = lastN 20 r2 →
      generate_response g lex goal_id rng r1 max_words =
        generate_response g lex goal_id rng r2 max_words) := by
  refine ⟨?_, ?_, ?_⟩
  · intro g goal_id r concept_id word_text concept_act
    cases h : (lastN 20 r).contains word_text <;>
      (simp only [conceptCandScore, h,
        show (([] : List String)).contains word_text = false from rfl,
        Bool.false_eq_true, if_false, if_true]; ring)
  · intro r act word_text
    cases h : (lastN 20 r).contains word_text <;>
      (simp only [motorCandScore, h,
        show (([] : List String)).contains word_text = false from rfl,
        Bool.false_eq_true, if_false, if_true]; ring)
  · intro g lex goal_id rng max_words r1 r2 h
    rw [generate_response, generate_response, h]

unseal Rat.mul Rat.add Rat.inv Rat.sub in
theorem claim_c10_recent_words_witness :
    conceptCandScore c2Graph ("goal_inform") (lastN 20 wRecent1) ("c") 1
        ("w3") =
      (if (lastN 20 wRecent1).contains ("w3") then (3/10 : ℚ) else 1) *
        conceptCandScore c2Graph ("goal_inform") [] ("c") 1 ("w3") ∧
    generate_response c2Graph emptyLexicon ("goal_inform") [] wRecent1 15 =
      generate_response c2Graph emptyLexicon ("goal_inform") [] wRecent2 15 :=
  ⟨claim_c10_recent_words.1 c2Graph ("goal_inform") wRecent1 ("c") ("w3") 1,
   claim_c10_recent_words.2.2 c2Graph emptyLexicon ("goal_inform") [] 15
     wRecent1 wRecent2 (by decide)⟩

unseal Rat.mul Rat.add Rat.inv Rat.sub in
theorem claim_c4_spread_pass_witness :
    edgeSpread (1/2) wNodeA wEdgeInh =
      -(abs (wNodeA.activation * wEdgeInh.weight)) ∧
    curiosityOf [] = 1/2 ∧
    applyDeltas [wNodeA] (spreadPass (1/2) [wNodeA] [wEdgeInh]).1 =
      [wNodeA].map (fun n =>
        { n with activation :=
            n.activation + spreadSum (1/2) [wNodeA] [wEdgeInh] n.id }) :=
  ⟨claim_c4_spread_pass.1 (1/2) wNodeA wEdgeInh rfl,
   claim_c4_spread_pass.2.2.2.2.1 [] rfl,
   claim_c4_spread_pass.2.2.2.2.2 (1/2) [wNodeA] [wEdgeInh]⟩

end BRAIN
